import Mathlib

/-!
Verification of the coinmon CLI data-transformation pipeline
(src/index.js and src/validation.js) against its natural-language
specification.  The JavaScript code is shallowly embedded: JS values are
modelled by the inductive type `JSVal` (with `ℚ` standing for the finite
JS numbers and a separate `nan` constructor), JS objects of interest by
structures or association lists, and each stage of the pipeline by an
executable Lean function translated line by line from the source.
-/

/-- A JavaScript value as it occurs in the pipeline: `num` is a finite
number (modelled exactly by a rational), `nan` the IEEE NaN produced by
failed numeric coercions, and `undefined` the value of a missing
property. -/
inductive JSVal where
  | undefined
  | null
  | nan
  | bool (b : Bool)
  | num (q : ℚ)
  | str (s : String)
deriving DecidableEq, Repr

/-- JS truthiness: `undefined`, `null`, `NaN`, `false`, `0` and `""` are
falsy, everything else is truthy. -/
def truthy : JSVal → Bool
  | .undefined => false
  | .null => false
  | .nan => false
  | .bool b => b
  | .num q => decide (q ≠ 0)
  | .str s => decide (s ≠ "")

/-- The numeric value of a decimal digit character, `none` otherwise. -/
def charDigit (c : Char) : Option ℕ :=
  if ('0' ≤ c ∧ c ≤ '9') then some (c.toNat - 48) else none

/-- Value of a non-empty all-digit character list, `none` otherwise. -/
def digitsVal : List Char → Option ℕ
  | [] => none
  | cs => cs.foldl (fun acc c => match acc, charDigit c with
      | some n, some d => some (n * 10 + d)
      | _, _ => none) (some 0)

/-- Value of a decimal fraction part (the digits after the point). -/
def fracVal : List Char → Option ℚ
  | [] => none
  | cs => (digitsVal cs).map (fun n => (n : ℚ) / (10 : ℚ) ^ cs.length)

/-- Parse an unsigned decimal literal, with an optional single point. -/
def parseDecimal (cs : List Char) : Option ℚ :=
  match cs.splitOn '.' with
  | [intPart] => (digitsVal intPart).map (fun n => (n : ℚ))
  | [intPart, fracPart] =>
      match intPart, fracPart with
      | [], [] => none
      | [], f => fracVal f
      | i, [] => (digitsVal i).map (fun n => (n : ℚ))
      | i, f => match digitsVal i, fracVal f with
          | some n, some q => some ((n : ℚ) + q)
          | _, _ => none
  | _ => none

/-- JS `ToNumber` on a string, modelled for plain decimal literals
(optional sign, digits, optional fraction); the empty string coerces to
`0` as in JS, and any string outside this grammar coerces to `NaN`.
(Hex/exponent literals and whitespace trimming are outside the model;
no theorem below depends on such inputs.) -/
def strToNumber (s : String) : JSVal :=
  match s.data with
  | [] => .num 0
  | '-' :: rest => match parseDecimal rest with
      | some q => .num (-q)
      | none => .nan
  | '+' :: rest => match parseDecimal rest with
      | some q => .num q
      | none => .nan
  | cs => match parseDecimal cs with
      | some q => .num q
      | none => .nan

/-- JS `ToNumber`: numbers map to themselves, `null` to `0`, `undefined`
to `NaN`, booleans to `0`/`1`, strings through `strToNumber`. -/
def toNumber : JSVal → JSVal
  | .num q => .num q
  | .nan => .nan
  | .null => .num 0
  | .undefined => .nan
  | .bool b => .num (if b then 1 else 0)
  | .str s => strToNumber s

/-- The JS idiom `x && +x` used throughout the normalization stage: if
`x` is truthy its numeric coercion is produced, otherwise `x` itself (the
falsy raw value) is produced unchanged. -/
def jsAndNum (v : JSVal) : JSVal :=
  if truthy v then toNumber v else v

/-- JS subtraction `a - b` (numeric coercion; `NaN` is absorbing). -/
def jsSub (a b : JSVal) : JSVal :=
  match toNumber a, toNumber b with
  | .num x, .num y => .num (x - y)
  | _, _ => .nan

/-- JS multiplication `a * b` (numeric coercion; `NaN` is absorbing). -/
def jsMul (a b : JSVal) : JSVal :=
  match toNumber a, toNumber b with
  | .num x, .num y => .num (x * y)
  | _, _ => .nan

/-- JS comparison `v > q` against a number: false whenever the coercion
of `v` is `NaN`. -/
def jsGT (v : JSVal) (q : ℚ) : Bool :=
  match toNumber v with
  | .num x => decide (q < x)
  | _ => false

/-- JS comparison `v >= q` against a number: false whenever the coercion
of `v` is `NaN`. -/
def jsGE (v : JSVal) (q : ℚ) : Bool :=
  match toNumber v with
  | .num x => decide (q ≤ x)
  | _ => false

/-- JS `isNaN(v)`: the numeric coercion of `v` is `NaN`. -/
def jsIsNaN (v : JSVal) : Bool :=
  match toNumber v with
  | .num _ => false
  | _ => true

/-- The decimal digit characters, by explicit cases (ten digits). -/
def digitChar : ℕ → Char
  | 0 => '0' | 1 => '1' | 2 => '2' | 3 => '3' | 4 => '4'
  | 5 => '5' | 6 => '6' | 7 => '7' | 8 => '8' | 9 => '9'
  | _ => '*'

/-- Digit expansion with explicit fuel, so that it is structurally
recursive and evaluates by kernel reduction. -/
def natCharsFuel : ℕ → ℕ → List Char
  | 0, n => [digitChar n]
  | fuel + 1, n =>
      if n < 10 then [digitChar n]
      else natCharsFuel fuel (n / 10) ++ [digitChar (n % 10)]

/-- The decimal digit characters of a natural number, most significant
first (`n` itself always suffices as fuel). -/
def natChars (n : ℕ) : List Char := natCharsFuel n n

/-- JS `ToString` of an integer-valued number: plain decimal with an
optional leading minus sign. -/
def intToJsString (z : ℤ) : String :=
  if z < 0 then ⟨'-' :: natChars z.natAbs⟩ else ⟨natChars z.toNat⟩

/-- Fixed-point decimal rendering with `n` digits after the point
(models `Number.prototype.toFixed`, with round-half-up). -/
def toFixedStr (q : ℚ) (n : ℕ) : String :=
  let scaled : ℤ := ⌊|q| * (10 : ℚ) ^ n + 1/2⌋
  let ip := scaled / (10 : ℤ) ^ n
  let fp := (scaled % (10 : ℤ) ^ n).toNat
  let sign := if q < 0 then "-" else ""
  if n = 0 then sign ++ intToJsString ip
  else
    let fchars := natChars fp
    let padded := List.replicate (n - fchars.length) '0' ++ fchars
    sign ++ intToJsString ip ++ "." ++ ⟨padded⟩

/-- JS `ToString` of a number value: exact for integer values;
non-integral values are rendered with six fixed decimals, an
approximation of the JS double-formatting algorithm that no theorem
below depends on. -/
def qToJsString (q : ℚ) : String :=
  if q.den = 1 then intToJsString q.num else toFixedStr q 6

/-- JS `ToString` on the values the pipeline stringifies. -/
def jsToString : JSVal → String
  | .undefined => "undefined"
  | .null => "null"
  | .nan => "NaN"
  | .bool b => if b then "true" else "false"
  | .num q => qToJsString q
  | .str s => s

/-- The `colors` library wrapper `.green` (ANSI escapes). -/
def green (s : String) : String := "\x1b[32m" ++ s ++ "\x1b[39m"

/-- The `colors` library wrapper `.red` (ANSI escapes). -/
def red (s : String) : String := "\x1b[31m" ++ s ++ "\x1b[39m"

/-- The `colors` library wrapper `.yellow` (ANSI escapes). -/
def yellow (s : String) : String := "\x1b[33m" ++ s ++ "\x1b[39m"

/-- JS `String.prototype.toLowerCase`, modelled character-wise (the
symbols and currency codes involved are ASCII). -/
def jsToLower (s : String) : String := ⟨s.data.map Char.toLower⟩

/-- JS `String.prototype.toUpperCase`, modelled character-wise. -/
def jsToUpper (s : String) : String := ⟨s.data.map Char.toUpper⟩

/-- Model of `humanize.compactInteger(value, 3)` from the external
humanize-plus collaborator: thousands/millions/billions/trillions
abbreviation with three fixed decimals.  Only its totality matters for
the theorems below. -/
def compactInteger (q : ℚ) (dec : ℕ) : String :=
  let a := |q|
  if a < 1000 then qToJsString q
  else if a < 10 ^ 6 then toFixedStr (q / 10 ^ 3) dec ++ "k"
  else if a < 10 ^ 9 then toFixedStr (q / 10 ^ 6) dec ++ "M"
  else if a < 10 ^ 12 then toFixedStr (q / 10 ^ 9) dec ++ "B"
  else toFixedStr (q / 10 ^ 12) dec ++ "T"

/-- `humanize.compactInteger` applied to a JS value (numeric coercion). -/
def compactIntegerVal (v : JSVal) : String :=
  match toNumber v with
  | .num q => compactInteger q 3
  | _ => "NaN"

/-!  ## src/validation.js  -/

/-- Outcome of a validator: either the process was terminated
(`process.exit()` reached) or a value was returned to the caller. -/
inductive ValidateResult where
  | exited
  | ret (v : JSVal)
deriving DecidableEq, Repr

/-- `validateNumber` from src/validation.js:

    validateNumber : (value) => {
      if (isNaN(value) && +value >= 0) {
        console.log(`Please input a valid parameter.`.red)
        process.exit()
      }
      return +value
    }

The option argument handed over by commander is a string. -/
def validateNumber (value : String) : ValidateResult :=
  if jsIsNaN (.str value) && jsGE (toNumber (.str value)) 0
  then .exited
  else .ret (toNumber (.str value))

/-- The currency allow-list of `validateConvertCurrency`. -/
def availableCurrencies : List String :=
  ["USD", "AUD", "BRL", "CAD", "CHF", "CLP", "CNY", "CZK", "DKK", "EUR",
   "GBP", "HKD", "HUF", "IDR", "ILS", "INR", "JPY", "KRW", "MXN", "MYR",
   "NOK", "NZD", "PHP", "PKR", "PLN", "RUB", "SEK", "SGD", "THB", "TRY",
   "TWD", "ZAR", "BTC"]

/-- `validateConvertCurrency` from src/validation.js: uppercase the
input and exit unless it is in the allow-list. -/
def validateConvertCurrency (value : String) : ValidateResult :=
  let convert := jsToUpper value
  if availableCurrencies.contains convert
  then .ret (.str convert)
  else .exited

/-!  ## src/index.js : option handling and key names  -/

/-- The per-run configuration derived from the CLI options: the
validated convert currency (already uppercased) and whether portfolio
mode is active. -/
structure Config where
  convert : String
  portfolio : Bool
deriving DecidableEq, Repr

/-- `const marketcapConvert = convert === 'BTC' ? 'USD' : convert`. -/
def marketcapConvert (convert : String) : String :=
  if convert = "BTC" then "USD" else convert

/-- ``const priceKey = `price_${convert}`.toLowerCase()``. -/
def priceKey (convert : String) : String :=
  jsToLower ("price_" ++ convert)

/-- ``const marketCapKey = `market_cap_${marketcapConvert}`.toLowerCase()``. -/
def marketCapKey (convert : String) : String :=
  jsToLower ("market_cap_" ++ marketcapConvert convert)

/-- ``const volume24hKey = `24h_volume_${marketcapConvert}`.toLowerCase()``. -/
def volume24hKey (convert : String) : String :=
  jsToLower ("24h_volume_" ++ marketcapConvert convert)

/-!  ## src/index.js : table header and column selection  -/

/-- The fixed default header:

    const defaultHeader = ['Rank', 'Coin', `Price ${convert}`, 'Change 1H',
      'Change 24H', 'Change 7D', `Market Cap ${marketcapConvert}`]
      .map(title => title.yellow)
    if (portfolio) { defaultHeader.push('Balance'.yellow);
                     defaultHeader.push('Estimated Value'.yellow) }
-/
def defaultHeader (cfg : Config) : List String :=
  (["Rank", "Coin", "Price " ++ cfg.convert, "Change 1H", "Change 24H",
    "Change 7D", "Market Cap " ++ marketcapConvert cfg.convert]
   ++ if cfg.portfolio then ["Balance", "Estimated Value"] else []).map yellow

/-- `const defaultColumns = defaultHeader.map((item, index) => index)`. -/
def defaultColumns (cfg : Config) : List ℤ :=
  (List.range (defaultHeader cfg).length).map (fun n : ℕ => (n : ℤ))

/-- The `--specific` column selection.  Each user-supplied entry is
modelled by its numeric coercion `+index`: `none` stands for an entry
whose coercion is `NaN`, `some z` for an entry with integral numeric
value `z` (column indices are whole numbers; non-integral coercions are
outside the model).  Mirrors

    const columns = column.length > 0
    ? column.map(index => +index)
      .filter((index) => {
      return !isNaN(index)
        && index < defaultHeader.length
      })
    : defaultColumns
-/
def columns (cfg : Config) (specific : List (Option ℤ)) : List ℤ :=
  if specific.length > 0 then
    specific.filterMap (fun o => match o with
      | none => none
      | some z => if z < ((defaultHeader cfg).length : ℤ) then some z else none)
  else defaultColumns cfg

/-- Insertion of `x` into `l`, placing `x` before the first element `b`
with `c x b < 0`.  This is the stable-insertion building block of the
`Array.prototype.sort` model below. -/
def insertBy (c : α → α → ℚ) (x : α) : List α → List α
  | [] => [x]
  | b :: t => if c x b < 0 then x :: b :: t else b :: insertBy c x t

/-- Model of `Array.prototype.sort(comparator)`: a sort that places `a`
before `b` exactly when the comparator reports a negative value, and
keeps the original relative order on ties, processing the input left to
right.  For a consistent comparator this is the stable sort required by
ECMAScript.  For the inconsistent constant `-1` comparator that the
pipeline uses when no sort key applies, this model reverses the input —
matching the observable behaviour of V8 (Node's engine), whose TimSort
reads a constant negative comparison on every adjacent pair as one long
strictly-descending run and reverses it. -/
def jsSort (c : α → α → ℚ) (l : List α) : List α :=
  l.foldl (fun acc x => insertBy c x acc) []

/-- Code-unit lexicographic comparison of character lists (the ECMA
string `<` on the ASCII data involved). -/
def charsLtB : List Char → List Char → Bool
  | [], [] => false
  | [], _ :: _ => true
  | _ :: _, [] => false
  | a :: as, b :: bs => if a < b then true else if b < a then false else charsLtB as bs

/-- Code-unit lexicographic comparison of strings. -/
def strLtB (a b : String) : Bool := charsLtB a.data b.data

/-- The ECMAScript default sort comparator (no comparator argument):
compare the `ToString` images of the two numbers code-unit-wise. -/
def defaultCmp (a b : ℤ) : ℚ :=
  if strLtB (intToJsString a) (intToJsString b) then -1
  else if strLtB (intToJsString b) (intToJsString a) then 1 else 0

/-- `const sortedColumns = columns.sort()` — the JS engine default sort,
which compares string images. -/
def sortedColumns (cfg : Config) (specific : List (Option ℤ)) : List ℤ :=
  jsSort defaultCmp (columns cfg specific)

/-- JS array indexing `l[z]` with a (possibly negative) integer index:
the element when `0 ≤ z < l.length`, `undefined` otherwise. -/
def jsIndex (l : List JSVal) (z : ℤ) : JSVal :=
  if h : 0 ≤ z ∧ z.toNat < l.length then l.get ⟨z.toNat, h.2⟩ else .undefined

/-- `const header = sortedColumns.map(index => defaultHeader[index])`. -/
def headerOf (cfg : Config) (specific : List (Option ℤ)) : List JSVal :=
  (sortedColumns cfg specific).map (jsIndex ((defaultHeader cfg).map .str))

/-!  ## src/index.js : records and the normalization stage  -/

/-- A raw API record: the fields the pipeline reads by name, plus the
remaining key-value pairs (the currency-suffixed fields) as an
association list, looked up with `RawRecord.get`.  The pipeline calls
`record.symbol.toLowerCase()`, so `symbol` is modelled as a string. -/
structure RawRecord where
  name : JSVal
  symbol : String
  rank : JSVal
  available_supply : JSVal
  total_supply : JSVal
  max_supply : JSVal
  percent_change_1h : JSVal
  percent_change_24h : JSVal
  percent_change_7d : JSVal
  last_updated : JSVal
  extra : List (String × JSVal)
deriving DecidableEq, Repr

/-- Dynamic property read `record[key]` on a raw record (for the
currency-suffixed keys); a missing key is `undefined`. -/
def RawRecord.get (r : RawRecord) (key : String) : JSVal :=
  (r.extra.lookup key).getD .undefined

/-- Property read on a JS object modelled as an association list
(`portfolioCoins[k]`); a missing key is `undefined`. -/
def objGet (o : List (String × JSVal)) (k : String) : JSVal :=
  (o.lookup k).getD .undefined

/-- The normalized record built by the `.map(record => ...)` stage
(`editedRecord` in the source): every numeric-bearing field passes
through `x && +x`, and the three currency-suffixed values are stored in
dedicated fields (their key names are `priceKey`/`volume24hKey`/
`marketCapKey`).  The two portfolio fields are set only in portfolio
mode and are `undefined` (absent) otherwise. -/
structure NormalizedRecord where
  name : JSVal
  symbol : String
  rank : JSVal
  available_supply : JSVal
  total_supply : JSVal
  max_supply : JSVal
  percent_change_1h : JSVal
  percent_change_24h : JSVal
  percent_change_7d : JSVal
  last_updated : JSVal
  price : JSVal
  volume24h : JSVal
  marketCap : JSVal
  portfolio_balance : JSVal
  portfolio_estimated_value : JSVal
deriving DecidableEq, Repr

/-- JS `parseFloat` applied to a value (model: strings parse as decimal
literals, numbers pass through, everything else is `NaN`). -/
def parseFloatVal (v : JSVal) : JSVal :=
  match v with
  | .str s => strToNumber s
  | .num q => .num q
  | _ => .nan

/-- The normalization stage for one record, translated from the
`.map(record => { const editedRecord = ... })` body of src/index.js. -/
def editedRecord (cfg : Config) (portfolioCoins : List (String × JSVal))
    (r : RawRecord) : NormalizedRecord :=
  { name := r.name
    symbol := r.symbol
    rank := jsAndNum r.rank
    available_supply := jsAndNum r.available_supply
    total_supply := jsAndNum r.total_supply
    max_supply := jsAndNum r.max_supply
    percent_change_1h := jsAndNum r.percent_change_1h
    percent_change_24h := jsAndNum r.percent_change_24h
    percent_change_7d := jsAndNum r.percent_change_7d
    last_updated := r.last_updated
    price := jsAndNum (r.get (priceKey cfg.convert))
    volume24h := jsAndNum (r.get (volume24hKey cfg.convert))
    marketCap := jsAndNum (r.get (marketCapKey cfg.convert))
    portfolio_balance :=
      if cfg.portfolio then objGet portfolioCoins (jsToLower r.symbol)
      else .undefined
    portfolio_estimated_value :=
      if cfg.portfolio then
        jsMul (objGet portfolioCoins (jsToLower r.symbol))
          (parseFloatVal (r.get (priceKey cfg.convert)))
      else .undefined }

/-!  ## src/index.js : filter stage  -/

/-- The `.filter(record => ...)` stage: in portfolio mode keep records
whose symbol case-insensitively matches a key of the portfolio config;
otherwise, with a non-empty find list, keep records whose symbol
case-insensitively matches an entry; otherwise keep everything. -/
def filterStage (cfg : Config) (portfolioCoins : List (String × JSVal))
    (find : List String) (l : List RawRecord) : List RawRecord :=
  l.filter (fun r =>
    if cfg.portfolio then
      (portfolioCoins.map Prod.fst).any (fun k => jsToLower r.symbol == jsToLower k)
    else if find.length > 0 then
      find.any (fun k => jsToLower r.symbol == jsToLower k)
    else true)

/-!  ## src/index.js : sort stage  -/

/-- The `keysMap` of src/index.js: the fixed map for indices 0–6, plus
`portfolio_balance` at `defaultHeader.length - 1` and
`portfolio_estimated_value` at `defaultHeader.length` when portfolio
mode is active (with the portfolio header those are indices 8 and 9). -/
def keysMap (cfg : Config) (i : ℤ) : Option String :=
  if i = 0 then some "rank"
  else if i = 1 then some "symbol"
  else if i = 2 then some (priceKey cfg.convert)
  else if i = 3 then some "percent_change_1h"
  else if i = 4 then some "percent_change_24h"
  else if i = 5 then some "percent_change_7d"
  else if i = 6 then some (marketCapKey cfg.convert)
  else if cfg.portfolio ∧ i = ((defaultHeader cfg).length : ℤ) - 1 then
    some "portfolio_balance"
  else if cfg.portfolio ∧ i = ((defaultHeader cfg).length : ℤ) then
    some "portfolio_estimated_value"
  else none

/-- Property read `record[key]` on a normalized record, dispatching on
the key names that actually occur as values of `keysMap` (the three
currency-suffixed keys are the dedicated `price`/`volume24h`/
`marketCap` fields). -/
def getField (cfg : Config) (r : NormalizedRecord) (key : String) : JSVal :=
  if key = "name" then r.name
  else if key = "symbol" then .str r.symbol
  else if key = "rank" then r.rank
  else if key = "percent_change_1h" then r.percent_change_1h
  else if key = "percent_change_24h" then r.percent_change_24h
  else if key = "percent_change_7d" then r.percent_change_7d
  else if key = priceKey cfg.convert then r.price
  else if key = volume24hKey cfg.convert then r.volume24h
  else if key = marketCapKey cfg.convert then r.marketCap
  else if key = "portfolio_balance" then r.portfolio_balance
  else if key = "portfolio_estimated_value" then r.portfolio_estimated_value
  else .undefined

/-- `String.prototype.localeCompare`, modelled as code-unit comparison
(ASCII symbols; locale tailoring is outside the model). -/
def localeCompareQ (a b : String) : ℚ :=
  if a < b then -1 else if b < a then 1 else 0

/-- ECMAScript `SortCompare` post-processing of a comparator result:
a `NaN` result is treated as `+0`. -/
def sortCompareVal (v : JSVal) : ℚ :=
  match v with
  | .num q => q
  | _ => 0

/-- The sort comparator of src/index.js:

    .sort((recordA, recordB) => {
      const compareKey = keysMap[rank]
      if (rank === 0 || !compareKey) {
        return -1
      } else if (rank === 1) {
        return recordA[compareKey].localeCompare(recordB[compareKey])
      } else {
        return recordB[compareKey] - recordA[compareKey]
      }
    })
-/
def comparator (cfg : Config) (rank : ℤ) (a b : NormalizedRecord) : ℚ :=
  match keysMap cfg rank with
  | none => -1
  | some compareKey =>
      if rank = 0 then -1
      else if rank = 1 then
        localeCompareQ (jsToString (getField cfg a compareKey))
          (jsToString (getField cfg b compareKey))
      else
        sortCompareVal (jsSub (getField cfg b compareKey)
          (getField cfg a compareKey))

/-- The sort stage: `Array.prototype.sort` with the pipeline
comparator. -/
def sortStage (cfg : Config) (rank : ℤ) (l : List NormalizedRecord) :
    List NormalizedRecord :=
  jsSort (comparator cfg rank) l

/-!  ## src/index.js : row assembly and projection  -/

/-- `getColoredChangeValueText` from src/index.js:

    const getColoredChangeValueText = (value) => {
      const text = `${value}%`
      return value && (value > 0 ? text.green : text.red) || 'NA'
    }
-/
def getColoredChangeValueText (value : JSVal) : String :=
  let text := jsToString value ++ "%"
  if truthy value then (if jsGT value 0 then green text else red text)
  else "NA"

/-- `const displayedMarketCap = marketCap &&
humanize.compactInteger(marketCap, 3) || 'NA'`. -/
def displayedMarketCap (r : NormalizedRecord) : String :=
  if truthy r.marketCap then compactIntegerVal r.marketCap else "NA"

/-- The natural-order display row (`defaultValues` in the source), with
the two portfolio cells appended in portfolio mode. -/
def defaultValues (cfg : Config) (r : NormalizedRecord) : List JSVal :=
  [r.rank,
   .str r.symbol,
   r.price,
   .str (getColoredChangeValueText r.percent_change_1h),
   .str (getColoredChangeValueText r.percent_change_24h),
   .str (getColoredChangeValueText r.percent_change_7d),
   .str (displayedMarketCap r)]
  ++ if cfg.portfolio then
       [r.portfolio_balance,
        .str (toFixedStr (sortCompareVal (toNumber r.portfolio_estimated_value)) 2)]
     else []

/-- `const values = sortedColumns.map(index => defaultValues[index])` —
the projected display row for one record. -/
def displayRow (cfg : Config) (r : NormalizedRecord)
    (specific : List (Option ℤ)) : List JSVal :=
  (sortedColumns cfg specific).map (jsIndex (defaultValues cfg r))

/-- Definition following the spec's words (for the column-projection
claim): the requested indices re-sorted in ascending **numeric** order
before projection. -/
def specAscendingSort (l : List ℤ) : List ℤ :=
  jsSort (fun a b => ((a - b : ℤ) : ℚ)) l

/-!  ## Generic lemmas about the sort model  -/

open scoped List

theorem insertBy_perm (c : α → α → ℚ) (x : α) (l : List α) :
    insertBy c x l ~ x :: l := by
  induction l with
  | nil => rfl
  | cons b t ih =>
      by_cases hc : c x b < 0
      · simp [insertBy, hc]
      · simp only [insertBy, hc, if_false]
        exact (ih.cons b).trans (List.Perm.swap x b t)

theorem mem_insertBy {c : α → α → ℚ} {x y : α} {l : List α} :
    y ∈ insertBy c x l ↔ y = x ∨ y ∈ l := by
  rw [(insertBy_perm c x l).mem_iff, List.mem_cons]

theorem jsSort_perm (c : α → α → ℚ) (l : List α) : jsSort c l ~ l := by
  suffices h : ∀ (l acc : List α),
      l.foldl (fun a x => insertBy c x a) acc ~ acc ++ l by
    simpa using h l []
  intro l
  induction l with
  | nil => intro acc; simp
  | cons x t ih =>
      intro acc
      calc (x :: t).foldl (fun a y => insertBy c y a) acc
          = t.foldl (fun a y => insertBy c y a) (insertBy c x acc) := rfl
        _ ~ insertBy c x acc ++ t := ih (insertBy c x acc)
        _ ~ (x :: acc) ++ t := (insertBy_perm c x acc).append_right t
        _ ~ acc ++ x :: t := List.perm_middle.symm

section SortPairwise

variable {α : Type} {c : α → α → ℚ} {lt : α → α → Prop} {L : List α}

theorem insertBy_pairwise
    (hiff : ∀ a ∈ L, ∀ b ∈ L, (c a b < 0 ↔ lt a b))
    (htr : ∀ a ∈ L, ∀ b ∈ L, ∀ d ∈ L, lt a b → lt b d → lt a d)
    (hirr : ∀ a ∈ L, ¬ lt a a)
    {x : α} {l : List α} (hx : x ∈ L) (hl : ∀ y ∈ l, y ∈ L)
    (h : l.Pairwise (fun a b => ¬ lt b a)) :
    (insertBy c x l).Pairwise (fun a b => ¬ lt b a) := by
  induction l with
  | nil => simp [insertBy]
  | cons b t ih =>
      have hb : b ∈ L := hl b (List.mem_cons_self b t)
      have ht : ∀ y ∈ t, y ∈ L := fun y hy => hl y (List.mem_cons_of_mem b hy)
      by_cases hc : c x b < 0
      · have hxb : lt x b := (hiff x hx b hb).mp hc
        simp only [insertBy, hc, if_true]
        refine List.Pairwise.cons ?_ h
        intro y hy
        rcases List.mem_cons.mp hy with rfl | hyt
        · intro hbx
          exact hirr y hb (htr y hb x hx y hb hbx hxb)
        · intro hyx
          have hyb : ¬ lt y b := (List.pairwise_cons.mp h).1 y hyt
          exact hyb (htr y (ht y hyt) x hx b hb hyx hxb)
      · simp only [insertBy, hc, if_false]
        refine List.Pairwise.cons ?_ (ih ht (List.pairwise_cons.mp h).2)
        intro y hy
        rcases mem_insertBy.mp hy with rfl | hyt
        · exact fun hxb => hc ((hiff y hx b hb).mpr hxb)
        · exact (List.pairwise_cons.mp h).1 y hyt

theorem jsSort_pairwise
    (hiff : ∀ a ∈ L, ∀ b ∈ L, (c a b < 0 ↔ lt a b))
    (htr : ∀ a ∈ L, ∀ b ∈ L, ∀ d ∈ L, lt a b → lt b d → lt a d)
    (hirr : ∀ a ∈ L, ¬ lt a a)
    {l : List α} (hl : ∀ y ∈ l, y ∈ L) :
    (jsSort c l).Pairwise (fun a b => ¬ lt b a) := by
  suffices h : ∀ (l acc : List α), (∀ y ∈ l, y ∈ L) → (∀ y ∈ acc, y ∈ L) →
      acc.Pairwise (fun a b => ¬ lt b a) →
      (l.foldl (fun a x => insertBy c x a) acc).Pairwise
        (fun a b => ¬ lt b a) by
    exact h l [] hl (by simp) (by simp)
  intro l
  induction l with
  | nil => intro acc _ _ hacc; exact hacc
  | cons x t ih =>
      intro acc hlmem haccmem hacc
      have hx : x ∈ L := hlmem x (List.mem_cons_self x t)
      refine ih (insertBy c x acc) (fun y hy => hlmem y (List.mem_cons_of_mem x hy))
        (fun y hy => ?_) (insertBy_pairwise hiff htr hirr hx haccmem hacc)
      rcases mem_insertBy.mp hy with rfl | hya
      · exact hx
      · exact haccmem y hya

end SortPairwise

/-!  ## Supporting lemmas about coercions and rendering  -/

theorem strToNumber_cases (s : String) :
    (∃ q, strToNumber s = .num q) ∨ strToNumber s = .nan := by
  unfold strToNumber
  split
  · exact .inl ⟨0, rfl⟩
  · split
    · exact .inl ⟨_, rfl⟩
    · exact .inr rfl
  · split
    · exact .inl ⟨_, rfl⟩
    · exact .inr rfl
  · split
    · exact .inl ⟨_, rfl⟩
    · exact .inr rfl

theorem toNumber_cases (v : JSVal) :
    (∃ q, toNumber v = .num q) ∨ toNumber v = .nan := by
  cases v with
  | str s => exact strToNumber_cases s
  | num q => exact .inl ⟨q, rfl⟩
  | bool b => exact .inl ⟨_, rfl⟩
  | null => exact .inl ⟨0, rfl⟩
  | undefined => exact .inr rfl
  | nan => exact .inr rfl

/-- The guard of `validateNumber` is unsatisfiable: `isNaN(value)` and
`+value >= 0` both coerce the input with the same `ToNumber`, and
`NaN >= 0` is false, so the conjunction never holds. -/
theorem validateNumber_guard_false (v : JSVal) :
    (jsIsNaN v && jsGE (toNumber v) 0) = false := by
  rcases toNumber_cases v with ⟨q, hq⟩ | h
  · have h1 : jsIsNaN v = false := by unfold jsIsNaN; rw [hq]
    rw [h1, Bool.false_and]
  · have h1 : jsGE (toNumber v) 0 = false := by rw [h]; rfl
    rw [h1, Bool.and_false]

theorem green_ne_pct (u : String) : green u ≠ "0%" := by
  intro h
  have h2 := congrArg String.length h
  simp only [green, String.length_append] at h2
  have e1 : ("\x1b[32m" : String).length = 5 := rfl
  have e2 : ("\x1b[39m" : String).length = 5 := rfl
  have e3 : ("0%" : String).length = 2 := rfl
  rw [e1, e2, e3] at h2
  omega

theorem red_ne_pct (u : String) : red u ≠ "0%" := by
  intro h
  have h2 := congrArg String.length h
  simp only [red, String.length_append] at h2
  have e1 : ("\x1b[31m" : String).length = 5 := rfl
  have e2 : ("\x1b[39m" : String).length = 5 := rfl
  have e3 : ("0%" : String).length = 2 := rfl
  rw [e1, e2, e3] at h2
  omega

/-- A percent-change cell is either a colored (ANSI-wrapped) text or the
literal `NA`; it is never the plain string `0%`. -/
theorem getColored_ne_zero_pct (w : JSVal) :
    getColoredChangeValueText w ≠ "0%" := by
  unfold getColoredChangeValueText
  by_cases hw : truthy w
  · simp only [hw, if_true]
    by_cases hg : jsGT w 0
    · simp only [hg, if_true]; exact green_ne_pct _
    · simp only [hg, if_false]; exact red_ne_pct _
  · simp only [hw, Bool.false_eq_true, if_false]
    intro h
    have h2 := congrArg String.length h
    have e1 : ("NA" : String).length = 2 := rfl
    have e2 : ("0%" : String).length = 2 := rfl
    rw [e1, e2] at h2
    exact absurd (congrArg (fun s => s.get 0) h) (by decide)

/-!  ## Concrete fixtures shared by several claims  -/

/-- The default configuration: convert currency USD, no portfolio. -/
def cfgUSD : Config := { convert := "USD", portfolio := false }

/-- A raw record whose 24h percent change is the number `0`. -/
def rawPc24Zero : RawRecord :=
  { name := .str "Bitcoin"
    symbol := "BTC"
    rank := .str "1"
    available_supply := .str "17000000"
    total_supply := .str "17000000"
    max_supply := .str "21000000"
    percent_change_1h := .str "0.5"
    percent_change_24h := .num 0
    percent_change_7d := .str "-2.1"
    last_updated := .str "1520000000"
    extra := [("price_usd", .str "100"), ("24h_volume_usd", .str "5000"),
              ("market_cap_usd", .str "1700000000")] }

/-!  ## C1  -/

/-- **C1.**  The claim asserts that `validateNumber` reports an error and
terminates the process for every negative or non-numeric `--top`/`--rank`
argument.  The code cannot do so: its guard `isNaN(value) && +value >= 0`
is unsatisfiable (both tests coerce the argument with the same `ToNumber`,
and `NaN >= 0` is false), so the `process.exit()` branch is dead code.
This theorem shows the negative argument `"-5"` is returned as `-5` (and
the run proceeds to the network call), the non-numeric argument `"abc"`
is returned as `NaN`, and no input whatsoever reaches the exit. -/
theorem C1_validateNumber_dead_exit :
    validateNumber "-5" = .ret (.num (-5)) ∧
    validateNumber "abc" = .ret .nan ∧
    ∀ s : String, validateNumber s ≠ .exited := by
  refine ⟨by decide, by decide, ?_⟩
  intro s h
  unfold validateNumber at h
  rw [validateNumber_guard_false (.str s)] at h
  simp at h

/-!  ## C2  -/

/-- **C2 (counterexample).**  The claim says a raw numeric-bearing value
of `0` normalizes to an *absent* field, never numeric zero.  On the code,
`record.percent_change_24h && +record.percent_change_24h` evaluates to
the falsy left operand itself, so a raw `percent_change_24h: 0` yields
the normalized value numeric `0` — not `undefined` and not `null`. -/
theorem C2_counterexample :
    (editedRecord cfgUSD [] rawPc24Zero).percent_change_24h = .num 0 ∧
    (JSVal.num 0 ≠ .undefined) ∧ (JSVal.num 0 ≠ .null) := by
  refine ⟨by decide, by decide, by decide⟩

/-- **C2 (amended).**  For every raw value `v` among `0`, `null`, `""`
and missing (`undefined`), the normalization `v && +v` returns the falsy
raw value `v` itself unchanged (so raw `0` stays numeric zero and only
`null`/missing are genuinely absent), and in all four cases the
percent-change column renders `NA`; moreover no value whatsoever renders
as the plain string `0%`. -/
theorem C2_amended (v : JSVal)
    (h : v = .num 0 ∨ v = .null ∨ v = .str "" ∨ v = .undefined) :
    jsAndNum v = v ∧
    getColoredChangeValueText v = "NA" ∧
    (∀ cfg pc (r : RawRecord), r.percent_change_24h = v →
        (editedRecord cfg pc r).percent_change_24h = v) ∧
    (∀ w : JSVal, getColoredChangeValueText w ≠ "0%") := by
  have hfalsy : truthy v = false := by
    rcases h with rfl | rfl | rfl | rfl <;> decide
  have hand : jsAndNum v = v := by unfold jsAndNum; rw [hfalsy]; rfl
  refine ⟨hand, ?_, ?_, getColored_ne_zero_pct⟩
  · unfold getColoredChangeValueText
    rw [hfalsy]
    rfl
  · intro cfg pc r hr
    show jsAndNum r.percent_change_24h = v
    rw [hr, hand]

/-- Witness for C2 (amended), at the raw value `null`. -/
theorem C2_amended_witness :
    jsAndNum .null = .null ∧
    getColoredChangeValueText .null = "NA" ∧
    (∀ cfg pc (r : RawRecord), r.percent_change_24h = .null →
        (editedRecord cfg pc r).percent_change_24h = .null) ∧
    (∀ w : JSVal, getColoredChangeValueText w ≠ "0%") :=
  C2_amended .null (Or.inr (Or.inl rfl))

/-!  ## C3  -/

/-- **C3 (counterexample).**  The claim says every currency-suffixed key
carries the lowercased user-selected convert currency as suffix, for
every allow-listed currency *including BTC*.  For `convert = "BTC"` the
code substitutes `marketcapConvert = "USD"` into the market-cap and
24h-volume keys, so those two keys end in `usd`, not `btc`. -/
theorem C3_counterexample :
    "BTC" ∈ availableCurrencies ∧
    marketCapKey "BTC" = "market_cap_usd" ∧
    marketCapKey "BTC" ≠ "market_cap_" ++ jsToLower "BTC" ∧
    volume24hKey "BTC" = "24h_volume_usd" ∧
    volume24hKey "BTC" ≠ "24h_volume_" ++ jsToLower "BTC" := by
  refine ⟨by decide, by decide, by decide, by decide, by decide⟩

/-- **C3 (amended).**  For every allow-listed convert currency the price
key carries the lowercased convert currency as suffix; the market-cap
and 24h-volume keys carry the lowercased `marketcapConvert`, which
equals the convert currency for every currency except BTC, for which
both keys use `usd` instead. -/
theorem C3_amended :
    ∀ c ∈ availableCurrencies,
      priceKey c = "price_" ++ jsToLower c ∧
      (c ≠ "BTC" →
        marketCapKey c = "market_cap_" ++ jsToLower c ∧
        volume24hKey c = "24h_volume_" ++ jsToLower c) ∧
      (c = "BTC" →
        marketCapKey c = "market_cap_usd" ∧
        volume24hKey c = "24h_volume_usd") := by
  decide

/-- Witness for C3 (amended), at the currency BTC itself. -/
theorem C3_amended_witness :
    priceKey "BTC" = "price_" ++ jsToLower "BTC" ∧
    ("BTC" ≠ "BTC" →
      marketCapKey "BTC" = "market_cap_" ++ jsToLower "BTC" ∧
      volume24hKey "BTC" = "24h_volume_" ++ jsToLower "BTC") ∧
    ("BTC" = "BTC" →
      marketCapKey "BTC" = "market_cap_usd" ∧
      volume24hKey "BTC" = "24h_volume_usd") :=
  C3_amended "BTC" (by decide)

/-!  ## C4  -/

/-- **C4 (counterexample).**  The claim says that when `--specific` is
given but every entry is invalid, the projection is the identity (all
columns shown).  In the code, `columns` falls back to `defaultColumns`
only when the *raw* entry list is empty; a non-empty list whose entries
are all filtered out leaves `columns = []`, so the projection selects
**no** columns at all — every display row is empty, not complete. -/
theorem C4_counterexample :
    columns cfgUSD [none] = [] ∧
    (∀ r, displayRow cfgUSD r [none] = []) ∧
    columns cfgUSD [] = defaultColumns cfgUSD ∧
    defaultColumns cfgUSD = [0, 1, 2, 3, 4, 5, 6] := by
  refine ⟨by decide, fun r => rfl, by decide, by decide⟩

/-- **C4 (amended).**  If `--specific` is given (non-empty entry list)
and every entry is non-numeric or at least `defaultHeader.length`, the
column selection is empty and every projected display row is the empty
row; the identity projection happens only when `--specific` is not given
at all.  (Negative entries are *not* invalid to the code: they survive
the filter, see C5.) -/
theorem C4_amended (cfg : Config) (specific : List (Option ℤ))
    (hne : specific ≠ [])
    (hinv : ∀ o ∈ specific, o = none ∨
        ∃ z, o = some z ∧ ((defaultHeader cfg).length : ℤ) ≤ z) :
    columns cfg specific = [] ∧ ∀ r, displayRow cfg r specific = [] := by
  have hcols : columns cfg specific = [] := by
    unfold columns
    rw [if_pos (List.length_pos.mpr hne)]
    rw [List.filterMap_eq_nil_iff]
    intro o ho
    rcases hinv o ho with rfl | ⟨z, rfl, hz⟩
    · rfl
    · simpa using by omega
  refine ⟨hcols, fun r => ?_⟩
  unfold displayRow sortedColumns
  rw [hcols]
  rfl

/-- Witness for C4 (amended): `--specific` entries coercing to `NaN` and
to the out-of-range index 99. -/
theorem C4_amended_witness :
    columns cfgUSD [none, some 99] = [] ∧
    ∀ r, displayRow cfgUSD r [none, some 99] = [] :=
  C4_amended cfgUSD [none, some 99] (by decide)
    (by
      intro o ho
      rcases List.mem_cons.mp ho with rfl | ho2
      · exact Or.inl rfl
      · rcases List.mem_cons.mp ho2 with rfl | ho3
        · exact Or.inr ⟨99, rfl, by decide⟩
        · cases ho3)

/-!  ## C5  -/

/-- **C5 (counterexample).**  The claim says every index outside
`[0, header.length)` — including every negative index — is silently
dropped.  The code's filter only tests `!isNaN(index) && index <
defaultHeader.length`: the negative index `-1` passes it and stays in
the column selection. -/
theorem C5_counterexample :
    columns cfgUSD [some (-1), some 2] = [-1, 2] ∧
    ¬ (0 ≤ (-1 : ℤ)) := by
  refine ⟨by decide, by decide⟩

/-- **C5 (amended).**  Entries that are non-numeric (`NaN`) or at least
`defaultHeader.length` are silently dropped, but negative indices are
kept.  Every selected index is `< defaultHeader.length`, and indexing
the display row at a negative (or too large) index yields `undefined`
rather than reading a row cell, so no projection reads outside the
row. -/
theorem C5_amended :
    (∀ cfg specific, ∀ z ∈ columns cfg specific,
        z < ((defaultHeader cfg).length : ℤ)) ∧
    (∀ (row : List JSVal) (z : ℤ), z < 0 → jsIndex row z = .undefined) ∧
    (∀ (row : List JSVal) (z : ℤ), (row.length : ℤ) ≤ z →
        jsIndex row z = .undefined) := by
  refine ⟨?_, ?_, ?_⟩
  · intro cfg specific z hz
    unfold columns at hz
    by_cases h : specific.length > 0
    · rw [if_pos h] at hz
      rcases List.mem_filterMap.mp hz with ⟨o, _, hfo⟩
      cases o with
      | none => cases hfo
      | some w =>
          have hfo2 : (if w < ((defaultHeader cfg).length : ℤ)
              then some w else none) = some z := hfo
          by_cases hw : w < ((defaultHeader cfg).length : ℤ)
          · rw [if_pos hw] at hfo2
            cases hfo2
            exact hw
          · rw [if_neg hw] at hfo2
            cases hfo2
    · rw [if_neg h] at hz
      simp only [defaultColumns, List.mem_map, List.mem_range] at hz
      obtain ⟨n, hn, hz2⟩ := hz
      omega
  · intro row z hz
    unfold jsIndex
    rw [dif_neg]
    rintro ⟨h1, _⟩
    omega
  · intro row z hz
    unfold jsIndex
    rw [dif_neg]
    rintro ⟨h1, h2⟩
    omega

/-- Witness for C5 (amended): the kept negative index `-1` is below the
header length, and projecting it yields `undefined`. -/
theorem C5_amended_witness :
    ((-1 : ℤ) < ((defaultHeader cfgUSD).length : ℤ)) ∧
    jsIndex [JSVal.num 1, JSVal.str "BTC"] (-1) = .undefined ∧
    jsIndex [JSVal.num 1, JSVal.str "BTC"] 9 = .undefined :=
  ⟨C5_amended.1 cfgUSD [some (-1)] (-1) (by decide),
   C5_amended.2.1 [JSVal.num 1, JSVal.str "BTC"] (-1) (by decide),
   C5_amended.2.2 [JSVal.num 1, JSVal.str "BTC"] 9 (by decide)⟩

/-!  ## C6  -/

/-- A normalized record fixture with a given symbol, rank and market
cap (other fields fixed), used by the sort-stage claims. -/
def mkNr (sym : String) (rk : ℚ) (cap : ℚ) : NormalizedRecord :=
  { name := .str sym
    symbol := sym
    rank := .num rk
    available_supply := .num 1000
    total_supply := .num 1000
    max_supply := .undefined
    percent_change_1h := .num 1
    percent_change_24h := .num 2
    percent_change_7d := .num 3
    last_updated := .str "1520000000"
    price := .num 10
    volume24h := .num 100
    marketCap := .num cap
    portfolio_balance := .undefined
    portfolio_estimated_value := .undefined }

/-- Record fixtures for the sort-stage claims. -/
def nrA : NormalizedRecord := mkNr "AAA" 1 5

/-- Second record fixture for the sort-stage claims. -/
def nrB : NormalizedRecord := mkNr "BBB" 2 500

/-- Third record fixture for the sort-stage claims. -/
def nrC : NormalizedRecord := mkNr "CCC" 3 50

/-- **C6 (code bug).**  The claim (and the spec's intent) is that rank 0
— the default — leaves the record order unchanged.  The code instead
returns the constant `-1` from the comparator.  A comparator value `< 0`
instructs the sort to place its first argument before its second, so a
sort honouring the comparator reverses the list: on V8 (Node's engine)
TimSort reads the constant negative comparison on every adjacent pair as
one strictly-descending run and reverses it.  At the failing input
`[nrA, nrB]` with rank 0, the sort stage outputs `[nrB, nrA]`, not the
source order. -/
theorem C6_rank0_reverses :
    (∀ a b, comparator cfgUSD 0 a b = -1) ∧
    sortStage cfgUSD 0 [nrA, nrB] = [nrB, nrA] ∧
    [nrB, nrA] ≠ [nrA, nrB] ∧
    sortStage cfgUSD 0 [nrA, nrB, nrC] = [nrC, nrB, nrA] := by
  refine ⟨fun a b => rfl, by decide, by decide, by decide⟩

/-!  ## C9  -/

/-- **C9.**  With portfolio mode inactive and a non-empty find list, the
filter stage keeps exactly the records whose symbol case-insensitively
equals some entry of the find list, and no others. -/
theorem C9_find_filter (cfg : Config) (hport : cfg.portfolio = false)
    (pc : List (String × JSVal)) (find : List String) (hf : find ≠ [])
    (l : List RawRecord) (r : RawRecord) :
    r ∈ filterStage cfg pc find l ↔
      r ∈ l ∧ ∃ k ∈ find, jsToLower r.symbol = jsToLower k := by
  unfold filterStage
  rw [List.mem_filter]
  have hlen : 0 < find.length := List.length_pos.mpr hf
  constructor
  · rintro ⟨hm, hp⟩
    rw [hport] at hp
    simp only [Bool.false_eq_true, if_false, if_pos hlen] at hp
    rw [List.any_eq_true] at hp
    obtain ⟨k, hk, he⟩ := hp
    exact ⟨hm, k, hk, by simpa using he⟩
  · rintro ⟨hm, k, hk, he⟩
    refine ⟨hm, ?_⟩
    rw [hport]
    simp only [Bool.false_eq_true, if_false, if_pos hlen]
    rw [List.any_eq_true]
    exact ⟨k, hk, by simpa using he⟩

/-- A raw record fixture with symbol `BTC` for the filter claim. -/
def rawBTC : RawRecord :=
  { name := .str "Bitcoin", symbol := "BTC", rank := .str "1"
    available_supply := .undefined, total_supply := .undefined
    max_supply := .undefined, percent_change_1h := .str "0.5"
    percent_change_24h := .str "1.5", percent_change_7d := .str "2.5"
    last_updated := .str "1520000000"
    extra := [("price_usd", .str "100")] }

/-- A raw record fixture with symbol `ETH` for the filter claim. -/
def rawETH : RawRecord :=
  { rawBTC with name := .str "Ethereum", symbol := "ETH" }

/-- Witness for C9: finding `btc` (lowercase) among `[BTC, ETH]`. -/
theorem C9_find_filter_witness :
    rawBTC ∈ filterStage cfgUSD [] ["btc"] [rawBTC, rawETH] ↔
      rawBTC ∈ [rawBTC, rawETH] ∧
        ∃ k ∈ ["btc"], jsToLower rawBTC.symbol = jsToLower k :=
  C9_find_filter cfgUSD rfl [] ["btc"] (by decide) [rawBTC, rawETH] rawBTC

/-!  ## C10  -/

/-- **C10.**  Every projected display row has exactly as many cells as
the selected header has columns: both are images of `sortedColumns`
under a `map`, so the row length, the header length and the sorted
column-selection length all agree — for every configuration, record and
`--specific` request. -/
theorem C10_row_width (cfg : Config) (r : NormalizedRecord)
    (specific : List (Option ℤ)) :
    (displayRow cfg r specific).length = (headerOf cfg specific).length ∧
    (displayRow cfg r specific).length =
      (sortedColumns cfg specific).length := by
  unfold displayRow headerOf
  simp [List.length_map]

/-!  ## C8  -/

/-- The numeric value stored in a record's market-cap field (`0` when
the field is not a number; the claims use it only on numeric fields). -/
def marketCapVal (r : NormalizedRecord) : ℚ :=
  sortCompareVal r.marketCap

/-- **C8.**  For every rank greater than 1 that maps to a known key, and
every record sequence in which every record carries a numeric value for
that key, the sort stage produces a permutation of the input that is
ordered by descending numeric value of the mapped field (larger values
first). -/
theorem C8_sort_descending (cfg : Config) (rank : ℤ) (hrank : 1 < rank)
    (key : String) (hkey : keysMap cfg rank = some key)
    (l : List NormalizedRecord) (val : NormalizedRecord → ℚ)
    (hval : ∀ r ∈ l, getField cfg r key = .num (val r)) :
    sortStage cfg rank l ~ l ∧
    (sortStage cfg rank l).Pairwise (fun a b => val b ≤ val a) := by
  have hcomp : ∀ a ∈ l, ∀ b ∈ l,
      comparator cfg rank a b = val b - val a := by
    intro a ha b hb
    unfold comparator
    rw [hkey]
    have h0 : ¬ rank = 0 := by omega
    have h1 : ¬ rank = 1 := by omega
    simp only [h0, h1, if_false]
    rw [hval a ha, hval b hb]
    rfl
  refine ⟨jsSort_perm _ l, ?_⟩
  have hiff : ∀ a ∈ l, ∀ b ∈ l,
      (comparator cfg rank a b < 0 ↔ val b < val a) := by
    intro a ha b hb
    rw [hcomp a ha b hb]
    exact sub_neg
  have htr : ∀ a ∈ l, ∀ b ∈ l, ∀ d ∈ l,
      val b < val a → val d < val b → val d < val a := by
    intro a _ b _ d _ hab hbd
    exact lt_trans hbd hab
  have hirr : ∀ a ∈ l, ¬ val a < val a := fun a _ => lt_irrefl _
  have hpw := jsSort_pairwise (c := comparator cfg rank) (L := l)
    hiff htr hirr (fun y hy => hy)
  exact hpw.imp (fun h => not_lt.mp h)

unseal Rat.sub in
/-- Witness for C8: rank 6 (market cap) on records with caps
`[5, 500, 50]` yields the descending order `[500, 50, 5]`.  (`Rat.sub`
is unsealed so that the comparator evaluates by kernel reduction.) -/
theorem C8_sort_descending_witness :
    (sortStage cfgUSD 6 [nrA, nrB, nrC] ~ [nrA, nrB, nrC] ∧
     (sortStage cfgUSD 6 [nrA, nrB, nrC]).Pairwise
       (fun a b => marketCapVal b ≤ marketCapVal a)) ∧
    sortStage cfgUSD 6 [nrA, nrB, nrC] = [nrB, nrC, nrA] :=
  ⟨C8_sort_descending cfgUSD 6 (by decide) (marketCapKey "USD") rfl
      [nrA, nrB, nrC] marketCapVal (by decide), by decide⟩

/-!  ## C7 : groundwork on decimal strings and the default sort  -/

theorem digitChar_bounds (n : ℕ) (h : n < 10) :
    '0' ≤ digitChar n ∧ digitChar n ≤ '9' := by
  interval_cases n <;> exact ⟨by decide, by decide⟩

theorem natCharsFuel_head : ∀ (fuel n : ℕ), n ≤ fuel →
    ∃ c cs, natCharsFuel fuel n = c :: cs ∧ '0' ≤ c ∧ c ≤ '9'
  | 0, n, hn => by
      have hn0 : n = 0 := by omega
      subst hn0
      exact ⟨'0', [], rfl, by decide, by decide⟩
  | fuel + 1, n, hn => by
      by_cases h : n < 10
      · obtain ⟨h0, h9⟩ := digitChar_bounds n h
        exact ⟨digitChar n, [], by unfold natCharsFuel; rw [if_pos h], h0, h9⟩
      · obtain ⟨c, cs, hcs, h0, h9⟩ :=
          natCharsFuel_head fuel (n / 10)
            (by
              have hd : n / 10 < n := Nat.div_lt_self (by omega) (by omega)
              omega)
        refine ⟨c, cs ++ [digitChar (n % 10)], ?_, h0, h9⟩
        unfold natCharsFuel
        rw [if_neg h, hcs]
        rfl

theorem natChars_head (n : ℕ) :
    ∃ c cs, natChars n = c :: cs ∧ '0' ≤ c ∧ c ≤ '9' :=
  natCharsFuel_head n n (le_refl n)

theorem charsLtB_irrefl : ∀ l : List Char, charsLtB l l = false
  | [] => rfl
  | a :: as => by
      unfold charsLtB
      rw [if_neg (lt_irrefl a), if_neg (lt_irrefl a)]
      exact charsLtB_irrefl as

theorem charsLtB_trans : ∀ {a b c : List Char}, charsLtB a b = true →
    charsLtB b c = true → charsLtB a c = true
  | [], _ :: _, _ :: _, _, _ => rfl
  | x :: xs, y :: ys, z :: zs, hab, hbc => by
      unfold charsLtB at hab hbc ⊢
      by_cases hxy : x < y
      · by_cases hyz : y < z
        · rw [if_pos (lt_trans hxy hyz)]
        · by_cases hzy : z < y
          · rw [if_neg hyz, if_pos hzy] at hbc; cases hbc
          · have hyz2 : y = z := le_antisymm (not_lt.mp hzy) (not_lt.mp hyz)
            rw [if_pos (hyz2 ▸ hxy)]
      · by_cases hyx : y < x
        · rw [if_neg hxy, if_pos hyx] at hab; cases hab
        · have hxy2 : x = y := le_antisymm (not_lt.mp hyx) (not_lt.mp hxy)
          rw [if_neg hxy, if_neg hyx] at hab
          by_cases hyz : y < z
          · rw [if_pos (hxy2 ▸ hyz : x < z)]
          · by_cases hzy : z < y
            · rw [if_neg hyz, if_pos hzy] at hbc; cases hbc
            · rw [if_neg hyz, if_neg hzy] at hbc
              have hxz : ¬ x < z := by rw [hxy2]; exact hyz
              have hzx : ¬ z < x := by rw [hxy2]; exact hzy
              rw [if_neg hxz, if_neg hzx]
              exact charsLtB_trans hab hbc

/-- The decimal string of a negative integer (it starts with the minus
sign) is lexicographically smaller than that of a non-negative integer
(it starts with a digit). -/
theorem strLtB_neg_nonneg (z w : ℤ) (hz : z < 0) (hw : 0 ≤ w) :
    strLtB (intToJsString z) (intToJsString w) = true := by
  obtain ⟨c, cs, hcs, h0, _⟩ := natChars_head w.toNat
  unfold intToJsString
  rw [if_pos hz, if_neg (by omega : ¬ w < 0)]
  unfold strLtB
  show charsLtB ('-' :: natChars z.natAbs) (natChars w.toNat) = true
  rw [hcs]
  unfold charsLtB
  rw [if_pos (lt_of_lt_of_le (by decide : '-' < '0') h0)]

/-- On single-digit values (the in-range column indices) the
lexicographic comparison of decimal strings agrees with the numeric
order. -/
theorem strLtB_iff_digits (z w : ℤ) (h0z : 0 ≤ z) (hz : z < 9)
    (h0w : 0 ≤ w) (hw : w < 9) :
    (strLtB (intToJsString z) (intToJsString w) = true ↔ z < w) := by
  interval_cases z <;> interval_cases w <;> decide

/-- Indexing a JS array at a negative index yields `undefined`. -/
theorem jsIndex_neg_undefined (row : List JSVal) (z : ℤ) (hz : z < 0) :
    jsIndex row z = .undefined := by
  unfold jsIndex
  rw [dif_neg]
  rintro ⟨h1, _⟩
  omega

/-- A list that is pairwise ordered so that no non-negative element
precedes a negative one splits as its negative part followed by its
non-negative part. -/
theorem pairwise_filter_split (L : List ℤ)
    (h : L.Pairwise (fun a b => 0 ≤ a → 0 ≤ b)) :
    L = L.filter (fun z => decide (z < 0)) ++
        L.filter (fun z => decide (0 ≤ z)) := by
  induction L with
  | nil => rfl
  | cons a t ih =>
      have hhead := (List.pairwise_cons.mp h).1
      have htail := (List.pairwise_cons.mp h).2
      rw [List.filter_cons, List.filter_cons]
      by_cases ha : 0 ≤ a
      · have hnn : ∀ y ∈ t, 0 ≤ y := fun y hy => hhead y hy ha
        have h1 : t.filter (fun z => decide (z < 0)) = [] := by
          rw [List.filter_eq_nil_iff]
          intro y hy
          simpa using not_lt.mpr (hnn y hy)
        have h2 : t.filter (fun z => decide (0 ≤ z)) = t := by
          rw [List.filter_eq_self]
          intro y hy
          simpa using hnn y hy
        rw [if_neg (by simpa using not_lt.mpr ha), if_pos (by simpa using ha)]
        rw [h1, h2]
        rfl
      · have ha2 : a < 0 := not_le.mp ha
        rw [if_pos (by simpa using ha2), if_neg (by simpa using ha)]
        rw [List.cons_append]
        rw [← ih htail]

/-- Mapping a projection over a list of negative indices yields a row
of `undefined` cells determined only by the length. -/
theorem map_jsIndex_all_neg (row : List JSVal) (M : List ℤ)
    (hM : ∀ z ∈ M, z < 0) :
    M.map (jsIndex row) = List.replicate M.length .undefined := by
  induction M with
  | nil => rfl
  | cons z t ih =>
      rw [List.map_cons, List.length_cons, List.replicate_succ,
        ← ih (fun y hy => hM y (List.mem_cons_of_mem z hy))]
      rw [jsIndex_neg_undefined row z (hM z (List.mem_cons_self z t))]

/-- Core of C7: projecting the display row along the engine default
(string) sort of an in-range index selection yields exactly the same
row as projecting along the numeric ascending re-sort the spec
describes.  (Selections may contain arbitrary negative indices; those
always project `undefined` cells, and the non-negative in-range indices
are single digits, on which string order and numeric order agree.) -/
theorem map_jsIndex_sort_eq (l : List ℤ) (hb : ∀ z ∈ l, z < 9)
    (row : List JSVal) :
    (jsSort defaultCmp l).map (jsIndex row) =
      (specAscendingSort l).map (jsIndex row) := by
  have hpermS : jsSort defaultCmp l ~ l := jsSort_perm _ _
  have hpermN : specAscendingSort l ~ l := jsSort_perm _ _
  -- the code-side result is pairwise string-ordered
  have hiffS : ∀ a ∈ l, ∀ b ∈ l, (defaultCmp a b < 0 ↔
      strLtB (intToJsString a) (intToJsString b) = true) := by
    intro a _ b _
    unfold defaultCmp
    by_cases h1 : strLtB (intToJsString a) (intToJsString b) = true
    · rw [if_pos h1]
      exact iff_of_true (by decide) h1
    · rw [if_neg h1]
      by_cases h2 : strLtB (intToJsString b) (intToJsString a) = true
      · rw [if_pos h2]
        exact iff_of_false (by decide) h1
      · rw [if_neg h2]
        exact iff_of_false (by decide) h1
  have htrS : ∀ a ∈ l, ∀ b ∈ l, ∀ d ∈ l,
      strLtB (intToJsString a) (intToJsString b) = true →
      strLtB (intToJsString b) (intToJsString d) = true →
      strLtB (intToJsString a) (intToJsString d) = true :=
    fun _ _ _ _ _ _ hab hbd => charsLtB_trans hab hbd
  have hirrS : ∀ a ∈ l, ¬ strLtB (intToJsString a) (intToJsString a) = true := by
    intro a _ h
    simp [strLtB, charsLtB_irrefl] at h
  have hSsorted := jsSort_pairwise (c := defaultCmp) (L := l)
    hiffS htrS hirrS (fun y hy => hy)
  -- the spec-side result is pairwise numerically ordered
  have hiffN : ∀ a ∈ l, ∀ b ∈ l, (((a - b : ℤ) : ℚ) < 0 ↔ a < b) := by
    intro a _ b _
    rw [Int.cast_lt_zero]
    exact sub_neg
  have hNsorted := jsSort_pairwise (c := fun a b : ℤ => ((a - b : ℤ) : ℚ))
    (L := l) hiffN
    (fun _ _ _ _ _ _ hab hbd => lt_trans hab hbd)
    (fun a _ h => lt_irrefl a h) (fun y hy => hy)
  have hNle : (specAscendingSort l).Pairwise (fun a b : ℤ => a ≤ b) :=
    hNsorted.imp (fun h => not_lt.mp h)
  -- no non-negative element precedes a negative one, on either side
  have hPS : (jsSort defaultCmp l).Pairwise (fun a b => 0 ≤ a → 0 ≤ b) :=
    hSsorted.imp (fun {a b} h ha => by
      by_contra hb2
      exact h (strLtB_neg_nonneg b a (not_le.mp hb2) ha))
  have hPN : (specAscendingSort l).Pairwise (fun a b => 0 ≤ a → 0 ≤ b) :=
    hNle.imp (fun {a b} h ha => le_trans ha h)
  -- negative parts: equal length, all projecting undefined
  have hpermneg : (jsSort defaultCmp l).filter (fun z => decide (z < 0)) ~
      (specAscendingSort l).filter (fun z => decide (z < 0)) :=
    (hpermS.filter _).trans ((hpermN.filter _).symm)
  have hnegS : ∀ z ∈ (jsSort defaultCmp l).filter (fun z => decide (z < 0)),
      z < 0 := by
    intro z hz
    simpa using (List.mem_filter.mp hz).2
  have hnegN : ∀ z ∈ (specAscendingSort l).filter (fun z => decide (z < 0)),
      z < 0 := by
    intro z hz
    simpa using (List.mem_filter.mp hz).2
  -- non-negative parts: both numerically sorted and permutations of the
  -- same sublist, hence equal
  have hSnnLe : ((jsSort defaultCmp l).filter
      (fun z => decide (0 ≤ z))).Pairwise (fun a b : ℤ => a ≤ b) := by
    refine (List.Pairwise.sublist (List.filter_sublist _) hSsorted).imp_of_mem ?_
    intro a b haf hbf h
    have ha0 : 0 ≤ a := by simpa using (List.mem_filter.mp haf).2
    have hb0 : 0 ≤ b := by simpa using (List.mem_filter.mp hbf).2
    have ha9 : a < 9 := hb a (hpermS.mem_iff.mp (List.mem_of_mem_filter haf))
    have hb9 : b < 9 := hb b (hpermS.mem_iff.mp (List.mem_of_mem_filter hbf))
    by_contra hab
    exact h ((strLtB_iff_digits b a hb0 hb9 ha0 ha9).mpr (not_le.mp hab))
  have hNnnLe : ((specAscendingSort l).filter
      (fun z => decide (0 ≤ z))).Pairwise (fun a b : ℤ => a ≤ b) :=
    List.Pairwise.sublist (List.filter_sublist _) hNle
  have hpermnn : (jsSort defaultCmp l).filter (fun z => decide (0 ≤ z)) ~
      (specAscendingSort l).filter (fun z => decide (0 ≤ z)) :=
    (hpermS.filter _).trans ((hpermN.filter _).symm)
  have heqnn : (jsSort defaultCmp l).filter (fun z => decide (0 ≤ z)) =
      (specAscendingSort l).filter (fun z => decide (0 ≤ z)) :=
    List.eq_of_perm_of_sorted hpermnn hSnnLe hNnnLe
  -- assemble
  calc (jsSort defaultCmp l).map (jsIndex row)
      = ((jsSort defaultCmp l).filter (fun z => decide (z < 0)) ++
         (jsSort defaultCmp l).filter (fun z => decide (0 ≤ z))).map
          (jsIndex row) := by
        rw [← pairwise_filter_split _ hPS]
    _ = ((jsSort defaultCmp l).filter (fun z => decide (z < 0))).map
          (jsIndex row) ++
        ((jsSort defaultCmp l).filter (fun z => decide (0 ≤ z))).map
          (jsIndex row) := by
        rw [List.map_append]
    _ = List.replicate ((specAscendingSort l).filter
          (fun z => decide (z < 0))).length JSVal.undefined ++
        ((specAscendingSort l).filter (fun z => decide (0 ≤ z))).map
          (jsIndex row) := by
        rw [map_jsIndex_all_neg row _ hnegS, hpermneg.length_eq, heqnn]
    _ = ((specAscendingSort l).filter (fun z => decide (z < 0))).map
          (jsIndex row) ++
        ((specAscendingSort l).filter (fun z => decide (0 ≤ z))).map
          (jsIndex row) := by
        rw [map_jsIndex_all_neg row _ hnegN]
    _ = ((specAscendingSort l).filter (fun z => decide (z < 0)) ++
         (specAscendingSort l).filter (fun z => decide (0 ≤ z))).map
          (jsIndex row) := by
        rw [List.map_append]
    _ = (specAscendingSort l).map (jsIndex row) := by
        rw [← pairwise_filter_split _ hPN]

/-- The default header has 7 columns, 9 in portfolio mode. -/
theorem defaultHeader_length (cfg : Config) :
    (defaultHeader cfg).length = if cfg.portfolio then 9 else 7 := by
  cases hp : cfg.portfolio <;> simp [defaultHeader, hp]

/-- Every selected column index is below the header length (the code
filter keeps exactly the numeric entries `< defaultHeader.length`). -/
theorem mem_columns_lt (cfg : Config) (specific : List (Option ℤ)) :
    ∀ z ∈ columns cfg specific, z < ((defaultHeader cfg).length : ℤ) := by
  intro z hz
  unfold columns at hz
  by_cases h : specific.length > 0
  · rw [if_pos h] at hz
    rcases List.mem_filterMap.mp hz with ⟨o, _, hfo⟩
    cases o with
    | none => cases hfo
    | some w =>
        have hfo2 : (if w < ((defaultHeader cfg).length : ℤ)
            then some w else none) = some z := hfo
        by_cases hw : w < ((defaultHeader cfg).length : ℤ)
        · rw [if_pos hw] at hfo2
          cases hfo2
          exact hw
        · rw [if_neg hw] at hfo2
          cases hfo2
  · rw [if_neg h] at hz
    simp only [defaultColumns, List.mem_map, List.mem_range] at hz
    obtain ⟨n, hn, hz2⟩ := hz
    omega

/-- The spec-side ascending re-sort is numerically sorted. -/
theorem specAscendingSort_sorted (l : List ℤ) :
    (specAscendingSort l).Pairwise (fun a b : ℤ => a ≤ b) := by
  have hiffN : ∀ a ∈ l, ∀ b ∈ l, (((a - b : ℤ) : ℚ) < 0 ↔ a < b) := by
    intro a _ b _
    rw [Int.cast_lt_zero]
    exact sub_neg
  have hNsorted := jsSort_pairwise (c := fun a b : ℤ => ((a - b : ℤ) : ℚ))
    (L := l) hiffN
    (fun _ _ _ _ _ _ hab hbd => lt_trans hab hbd)
    (fun a _ h => lt_irrefl a h) (fun y hy => hy)
  exact hNsorted.imp (fun h => not_lt.mp h)

/-!  ## C7  -/

/-- **C7.**  The projected display row always equals the projection
along the *numeric* ascending re-sort of the kept indices (even though
the code uses the JS engine default string sort: in-range indices are
single digits, where the two orders agree, and any surviving negative
indices project `undefined` cells on both sides), and the projection is
therefore independent of the order in which the user supplies the
indices. -/
theorem C7_projection_ascending :
    (∀ cfg r specific, displayRow cfg r specific =
        (specAscendingSort (columns cfg specific)).map
          (jsIndex (defaultValues cfg r))) ∧
    (∀ cfg r specific specific2,
        columns cfg specific ~ columns cfg specific2 →
        displayRow cfg r specific = displayRow cfg r specific2) := by
  have hmain : ∀ cfg r specific, displayRow cfg r specific =
      (specAscendingSort (columns cfg specific)).map
        (jsIndex (defaultValues cfg r)) := by
    intro cfg r specific
    unfold displayRow sortedColumns
    apply map_jsIndex_sort_eq
    intro z hz
    have h1 := mem_columns_lt cfg specific z hz
    have h2 : (defaultHeader cfg).length ≤ 9 := by
      rw [defaultHeader_length]
      cases cfg.portfolio <;> simp
    omega
  refine ⟨hmain, ?_⟩
  intro cfg r e e2 hperm
  rw [hmain cfg r e, hmain cfg r e2]
  have heq : specAscendingSort (columns cfg e) =
      specAscendingSort (columns cfg e2) :=
    List.eq_of_perm_of_sorted
      ((jsSort_perm _ _).trans (hperm.trans (jsSort_perm _ _).symm))
      (specAscendingSort_sorted _) (specAscendingSort_sorted _)
  rw [heq]

/-- Witness for C7: `--specific 2,0` on the default header selects the
columns `[0, 2]` (ascending), i.e. `[Rank, Price]`, identical to
`--specific 0,2`. -/
theorem C7_projection_witness :
    (displayRow cfgUSD nrA [some 2, some 0] =
      (specAscendingSort (columns cfgUSD [some 2, some 0])).map
        (jsIndex (defaultValues cfgUSD nrA))) ∧
    (columns cfgUSD [some 2, some 0] ~ columns cfgUSD [some 0, some 2]) ∧
    displayRow cfgUSD nrA [some 2, some 0] =
      displayRow cfgUSD nrA [some 0, some 2] ∧
    sortedColumns cfgUSD [some 2, some 0] = [0, 2] ∧
    displayRow cfgUSD nrA [some 2, some 0] = [.num 1, .num 10] ∧
    headerOf cfgUSD [some 2, some 0] =
      [.str (yellow "Rank"), .str (yellow "Price USD")] :=
  ⟨C7_projection_ascending.1 cfgUSD nrA [some 2, some 0],
   by decide,
   C7_projection_ascending.2 cfgUSD nrA [some 2, some 0] [some 0, some 2]
     (by decide),
   by decide, by decide, by decide⟩
